import Mathlib

/-!
# Export step of the LXC builder (`builder/lxc/step_export.go`)

A shallow embedding of `stepExport.Run` and of the library functions it calls.

* A Go `string` is modelled as the list of its runes (`Str`); the configuration
  text is taken to be valid UTF-8, so that splitting on the one-byte separators
  the step uses and trimming Unicode white space act on runes as they act on
  bytes.
* The collaborators of the step (current-user lookup, the file system, the
  command runner `RunCommand`) are parameters, gathered in `Env`.
* A run yields an `Outcome`: the ordered trace of observable events, the file
  contents the step wrote, and how the run ended (a returned step action, a
  process exit through `log.Fatal`, or a runtime panic).
* Files are identified by the text of their path. The external commands are
  recorded by their argument vectors; what they do to the files is not part of
  the model.
-/

set_option autoImplicit false

namespace StepExport

/-- A Go string, as the sequence of its runes. -/
abbrev Str := List Char

/-! ## `strings` -/

/-- The result of `strings.Split(s, sep)` for a separator `sep` of one byte: the
pieces of `s` between the occurrences of `sep`, of which there is always at
least one. -/
def Split : Str → Char → List Str
  | [], _ => [[]]
  | c :: cs, sep =>
    if c = sep then [] :: Split cs sep
    else
      match Split cs sep with
      | [] => [[c]]
      | piece :: pieces => (c :: piece) :: pieces

/-- The result of `strings.HasPrefix(s, sub)`. -/
def HasPrefix : Str → Str → Bool
  | _, [] => true
  | [], _ :: _ => false
  | c :: cs, d :: ds => c == d && HasPrefix cs ds

/-- The result of `strings.Contains(s, sub)`: `sub` occurs somewhere in `s`. -/
def Contains : Str → Str → Bool
  | [], sub => HasPrefix [] sub
  | c :: cs, sub => HasPrefix (c :: cs) sub || Contains cs sub

/-- The predicate `unicode.IsSpace`: the Latin-1 spaces and the code points of
the Unicode `White_Space` property. -/
def isSpace (c : Char) : Bool :=
  let n := c.toNat
  (9 ≤ n && n ≤ 13) || n == 32 || n == 133 || n == 160 || n == 5760 ||
  (8192 ≤ n && n ≤ 8202) || n == 8232 || n == 8233 || n == 8239 ||
  n == 8287 || n == 12288

/-- The result of `strings.TrimSpace(s)`: `s` without its leading and trailing
white space. -/
def TrimSpace (s : Str) : Str :=
  ((s.dropWhile isSpace).reverse.dropWhile isSpace).reverse

/-- The result of `strings.Join(elems, sep)`. -/
def JoinStrings : List Str → Str → Str
  | [], _ => []
  | [e], _ => e
  | e :: f :: rest, sep => e ++ sep ++ JoinStrings (f :: rest) sep

/-! ## The identity-map parsing loop -/

/-- The marker by which a configuration line is recognised as an identity
mapping. -/
def marker : Str := "lxc.idmap".toList

/-- The double quote character. -/
def dquote : Char := Char.ofNat 34

/-- The message of `fmt.Errorf("Error parsing idmap: \"%s\"", line)`. -/
def errParseIdmap (line : Str) : Str :=
  "Error parsing idmap: ".toList ++ [dquote] ++ line ++ [dquote]

/-- The message of the error raised when no mapping was found. -/
def errNoIdmap : Str :=
  "Error parsing idmap to create a command to wrap tar in lxc-usernsexec".toList

/-- The text of `fmt.Sprintf("%s:%s:%s:%s", a, b, c, d)`. -/
def sprintfIdmap (a b c d : Str) : Str :=
  a ++ ':' :: b ++ ':' :: c ++ ':' :: d

/-- How the loop over the configuration lines ends. -/
inductive ParseResult where
  /-- Every line was processed; the remap list is `perms`. -/
  | ok (perms : List Str)
  /-- A marker line had a field count other than four: `log.Fatal(err)`. -/
  | fatal (err : Str)
  /-- A marker line has no element 1 after splitting on `=`: the index
  expression `r[1]` faults. -/
  | indexFault (line : Str)
  deriving DecidableEq, Repr

/-- The body of the loop `for _, line := range strings.Split(..., "\n")`,
started with the remap list `perms`. -/
def parseLines : List Str → List Str → ParseResult
  | [], perms => .ok perms
  | line :: rest, perms =>
    if Contains line marker then
      match (Split line '=').get? 1 with
      | none => .indexFault line
      | some r1 =>
        let i := Split (TrimSpace r1) ' '
        if i.length ≠ 4 then .fatal (errParseIdmap line)
        else
          parseLines rest
            (perms ++ ["-m".toList,
              sprintfIdmap (i.getD 0 []) (i.getD 1 []) (i.getD 2 []) (i.getD 3 [])])
    else parseLines rest perms

/-- The parsing loop of `Run` on the text of the configuration file. -/
def parseIdmap (text : Str) : ParseResult :=
  parseLines (Split text (Char.ofNat 10)) []

/-! ## `path/filepath` (Unix) -/

/-- One step of the loop of `filepath.Clean` over the elements of a path.
`st.1` is the list of elements written so far and `st.2` the number of leading
elements (`..`) below which a later `..` must not remove anything, the
`dotdot` mark of the library. -/
def cleanStep (rooted : Bool) (st : List Str × Nat) (e : Str) : List Str × Nat :=
  if e = [] then st
  else if e = ".".toList then st
  else if e = "..".toList then
    if st.2 < st.1.length then (st.1.dropLast, st.2)
    else if !rooted then (st.1 ++ ["..".toList], st.1.length + 1)
    else st
  else (st.1 ++ [e], st.2)

/-- The result of `filepath.Clean(path)`: the shortest path name equivalent to
`path` by purely lexical processing. -/
def Clean (path : Str) : Str :=
  if path = [] then ".".toList
  else
    let rooted := path.head? == some '/'
    let out := ((Split path '/').foldl (cleanStep rooted) ([], 0)).1
    let text := (if rooted then "/".toList else []) ++ JoinStrings out "/".toList
    if text = [] then ".".toList else text

/-- The result of `filepath.Join(elem...)`: the elements from the first
non-empty one on, joined by the separator and cleaned; the empty string when
every element is empty. -/
def Join : List Str → Str
  | [] => []
  | e :: rest => if e = [] then Join rest else Clean (JoinStrings (e :: rest) "/".toList)

/-! ## The collaborators of the step -/

/-- The fields of `os/user.User` the step reads. -/
structure User where
  Uid : Str
  HomeDir : Str
  deriving DecidableEq, Repr

/-- The fields of the builder's `Config` the step reads. -/
structure Config where
  ContainerName : Str
  OutputDir : Str
  ConfigFile : Str
  deriving DecidableEq, Repr

/-- The value a step hands back to the `multistep` runner. -/
inductive StepAction where
  | ActionContinue
  | ActionHalt
  deriving DecidableEq, Repr

/-- The files of interest, as pairs of a path and the contents stored there. -/
abbrev Files := List (Str × Str)

/-- The contents stored at `path`, if the file exists. -/
def Files.contents (fs : Files) (path : Str) : Option Str :=
  (fs.find? (fun f => f.1 == path)).map (fun f => f.2)

/-- The files after `data` has been stored at `path`. -/
def Files.store (fs : Files) (path : Str) (data : Str) : Files :=
  (path, data) :: fs.filter (fun f => !(f.1 == path))

/-- The behaviour of what the step calls but does not define. An error is
represented by the text of its `Error()` method. -/
structure Env where
  /-- The result of `user.Current()`: the user, or an error and no user. -/
  currentUser : Except Str User
  /-- The error of `os.Create(path)`, if it fails. -/
  createErr : Str → Option Str
  /-- The error of `os.ReadFile(path)`, if it fails although the file is
  there. -/
  readErr : Str → Option Str
  /-- The error of `os.Open(path)`, if it fails although the file is there. -/
  openErr : Str → Option Str
  /-- The error of `io.Copy(dst, src)`, if it fails. -/
  copyErr : Str → Str → Option Str
  /-- The error of the call of `RunCommand` with the argument vector `argv`,
  made after `k` earlier calls, if it fails. -/
  commandErr : Nat → List Str → Option Str

/-- The error of opening a file that is not there. -/
def errNotExist (path : Str) : Str :=
  "open ".toList ++ path ++ ": no such file or directory".toList

/-- The result of `os.ReadFile(path)`. -/
def ReadFile (env : Env) (fs : Files) (path : Str) : Except Str Str :=
  match env.readErr path with
  | some err => .error err
  | none =>
    match fs.contents path with
    | none => .error (errNotExist path)
    | some data => .ok data

/-- The result of `os.Open(path)`: the error, if any. -/
def Open (env : Env) (fs : Files) (path : Str) : Option Str :=
  match env.openErr path with
  | some err => some err
  | none =>
    match fs.contents path with
    | none => some (errNotExist path)
    | some _ => none

/-! ## What a run does -/

/-- An observable action of the step. -/
inductive Event where
  /-- A line written by `log.Print`. -/
  | logPrint (msg : Str)
  /-- A line written by `log.Fatal`, which then ends the process. -/
  | logFatal (msg : Str)
  /-- The call `state.Put(key, err)`. -/
  | statePut (key : Str) (err : Str)
  /-- The call `ui.Say(msg)`. -/
  | uiSay (msg : Str)
  /-- The call `ui.Error(msg)`. -/
  | uiError (msg : Str)
  /-- The call `RunCommand(argv...)`. -/
  | command (argv : List Str)
  deriving DecidableEq, Repr

/-- How a run ends. -/
inductive Ending where
  /-- The step returns `action` to the runner. -/
  | returned (action : StepAction)
  /-- The process ends in `os.Exit(code)`; the step never returns. -/
  | exited (code : Nat)
  /-- A runtime panic unwinds the step; it returns no action. -/
  | panicked (msg : Str)
  deriving DecidableEq, Repr

/-- The events of a run in the order they happen, the files it leaves, and its
ending. -/
structure Outcome where
  events : List Event
  files : Files
  ending : Ending
  deriving DecidableEq, Repr

/-- The argument vectors passed to `RunCommand`, in order. -/
def Outcome.commands (o : Outcome) : List (List Str) :=
  o.events.filterMap (fun e => match e with | .command argv => some argv | _ => none)

/-- The errors stored in the state bag under `error`, in order. -/
def Outcome.storedErrors (o : Outcome) : List Str :=
  o.events.filterMap (fun e =>
    match e with
    | .statePut key err => if key = "error".toList then some err else none
    | _ => none)

/-- The messages reported through `ui.Error`, in order. -/
def Outcome.reportedErrors (o : Outcome) : List Str :=
  o.events.filterMap (fun e => match e with | .uiError msg => some msg | _ => none)

/-- The failure exit every error branch of the step ends with:
`state.Put("error", err); ui.Error(err.Error()); return multistep.ActionHalt`. -/
def halt (events : List Event) (fs : Files) (err : Str) : Outcome :=
  { events := events ++ [.statePut "error".toList err, .uiError err]
    files := fs
    ending := .returned .ActionHalt }

/-- The text the verb `%s` gives for a slice of strings: the elements separated
by blanks, in square brackets. -/
def fmtSlice (argv : List Str) : Str :=
  '[' :: JoinStrings argv " ".toList ++ [']']

/-- The message of
`fmt.Errorf("Error exporting container: %s, command: %s", err, command)`. -/
def errExport (err : Str) (command : List Str) : Str :=
  "Error exporting container: ".toList ++ err ++ ", command: ".toList ++ fmtSlice command

/-- The loop `for _, command := range commands`, entered with `k` commands
already issued. -/
def runCommands (env : Env) (fs : Files) : Nat → List (List Str) → List Event → Outcome
  | _, [], events => { events := events, files := fs, ending := .returned .ActionContinue }
  | k, command :: rest, events =>
    match env.commandErr k command with
    | some err => halt (events ++ [.command command]) fs (errExport err command)
    | none => runCommands env fs (k + 1) rest (events ++ [.command command])

/-- The directory of the container store: `lxc_dir` after the test on the
user. -/
def lxcDir (user : User) : Str :=
  if user.Uid ≠ "0".toList ∧ user.HomeDir ≠ [] then
    Join [user.HomeDir, ".local".toList, "share".toList, "lxc".toList]
  else "/var/lib/lxc".toList

/-- The local `containerDir`. -/
def containerDir (user : User) (name : Str) : Str :=
  Join [lxcDir user, name]

/-- The local `outputPath`, the path of the archive. -/
def outputPath (config : Config) : Str :=
  Join [config.OutputDir, "rootfs.tar.gz".toList]

/-- The local `configFilePath`, the path of the copy of the configuration. -/
def configFilePath (config : Config) : Str :=
  Join [config.OutputDir, "lxc-config".toList]

/-- The slice `commands` the step builds. -/
def commandPlan (config : Config) (user : User) (perms : List Str) : List (List Str) :=
  [ ["lxc-stop".toList, "--name".toList, config.ContainerName],
    ["sudo".toList, "chmod".toList, "-R".toList, "0777".toList, config.OutputDir],
    ["lxc-usernsexec".toList] ++ perms ++
      ["--".toList, "tar".toList, "-C".toList,
        containerDir user config.ContainerName ++ "/rootfs".toList,
        "--numeric-owner".toList, "--anchored".toList,
        "--exclude=./rootfs/dev/log".toList, "-czf".toList, outputPath config, "./".toList],
    ["chmod".toList, "+x".toList, configFilePath config] ]

/-- The panic of reading a field through the nil `*User`. -/
def nilDereference : Str :=
  "runtime error: invalid memory address or nil pointer dereference".toList

/-- The panic of the index expression `r[1]` on a slice of length 1. -/
def indexOutOfRange : Str :=
  "runtime error: index out of range [1] with length 1".toList

/-- The method `(*stepExport).Run`, on the builder configuration `config` and
the files `fs`, with the collaborators `env`. -/
def Run (env : Env) (config : Config) (fs : Files) : Outcome :=
  match env.currentUser with
  | .error _ =>
    -- `log.Print`, then `user.Uid` reads through the nil pointer
    { events := [.logPrint "Cannot find current user. Falling back to /var/lib/lxc...".toList]
      files := fs
      ending := .panicked nilDereference }
  | .ok user =>
    match env.createErr (configFilePath config) with
    | some err => halt [] fs ("Error creating config file: ".toList ++ err)
    | none =>
      let fs1 := fs.store (configFilePath config) []
      match ReadFile env fs1 config.ConfigFile with
      | .error err => halt [] fs1 ("Error opening config file: ".toList ++ err)
      | .ok configFileContents =>
        match parseIdmap configFileContents with
        | .indexFault _ => { events := [], files := fs1, ending := .panicked indexOutOfRange }
        | .fatal err => { events := [.logFatal err], files := fs1, ending := .exited 1 }
        | .ok perms =>
          if perms.length = 0 then
            { events := [.logFatal errNoIdmap], files := fs1, ending := .exited 1 }
          else
            match Open env fs1 config.ConfigFile with
            | some err => halt [] fs1 ("Error opening config file: ".toList ++ err)
            | none =>
              match env.copyErr (configFilePath config) config.ConfigFile with
              | some err =>
                halt [] fs1
                  ("error copying file ".toList ++ config.ConfigFile ++ ": ".toList ++ err)
              | none =>
                let fs2 :=
                  fs1.store (configFilePath config)
                    ((fs1.contents config.ConfigFile).getD [])
                runCommands env fs2 0 (commandPlan config user perms)
                  [.uiSay "Exporting container...".toList]

/-! ## The shape of a well-formed mapping line -/

/-- The four fields of an identity-mapping line. -/
structure IdmapEntry where
  kind : Str
  cid : Str
  hid : Str
  len : Str
  deriving DecidableEq, Repr

/-- The remap argument `kind:cid:hid:len` of an entry. -/
def IdmapEntry.arg (e : IdmapEntry) : Str :=
  e.kind ++ ':' :: (e.cid ++ ':' :: (e.hid ++ ':' :: e.len))

/-- A field: not empty, and without the blank that separates fields. -/
def IsField (f : Str) : Prop := f ≠ [] ∧ ' ' ∉ f

instance : DecidablePred IsField :=
  fun f => inferInstanceAs (Decidable (f ≠ [] ∧ ' ' ∉ f))

/-- The line `line` is a well-formed mapping line with the fields of `e`: it has
one `=`, and the trimmed text after it is the four fields separated by single
blanks. -/
def WellFormed (line : Str) (e : IdmapEntry) : Prop :=
  ∃ pre post, line = pre ++ '=' :: post ∧ '=' ∉ pre ∧ '=' ∉ post ∧
    TrimSpace post = e.kind ++ ' ' :: (e.cid ++ ' ' :: (e.hid ++ ' ' :: e.len)) ∧
    IsField e.kind ∧ IsField e.cid ∧ IsField e.hid ∧ IsField e.len

/-- The remap list that corresponds to a list of entries: the pair `-m`,
`kind:cid:hid:len` for each, in order. -/
def remapArgs : List IdmapEntry → List Str
  | [] => []
  | e :: es => "-m".toList :: e.arg :: remapArgs es

/-- The lines of `text` that contain the marker, in file order. -/
def markerLines (text : Str) : List Str :=
  (Split text (Char.ofNat 10)).filter (fun line => Contains line marker)

/-! ## Path names that are already clean -/

/-- An ordinary element of a path name: not empty, without separator, and
neither `.` nor `..`. -/
def PlainElem (e : Str) : Prop :=
  e ≠ [] ∧ '/' ∉ e ∧ e ≠ ".".toList ∧ e ≠ "..".toList

instance : DecidablePred PlainElem :=
  fun e => inferInstanceAs (Decidable (e ≠ [] ∧ '/' ∉ e ∧ e ≠ ".".toList ∧ e ≠ "..".toList))

/-- The path name made of the elements `elems`, absolute when `rooted`. -/
def pathOf (rooted : Bool) (elems : List Str) : Str :=
  (if rooted then "/".toList else []) ++ JoinStrings elems "/".toList

/-- A path name written in clean form: one or more ordinary elements separated
by single separators, with or without a leading separator. -/
def CleanPath (p : Str) : Prop :=
  ∃ (rooted : Bool) (elems : List Str),
    elems ≠ [] ∧ (∀ e ∈ elems, PlainElem e) ∧ p = pathOf rooted elems

/-! ## The scenarios of the specification -/

/-- The builder configuration of the end-to-end scenario: container `web01`,
output directory `/tmp/out`. -/
def cfgWeb : Config :=
  { ContainerName := "web01".toList
    OutputDir := "/tmp/out".toList
    ConfigFile := "/var/lib/lxc/web01/config".toList }

/-- Collaborators that never fail, for the user `u`. -/
def envOk (u : User) : Env :=
  { currentUser := .ok u
    createErr := fun _ => none
    readErr := fun _ => none
    openErr := fun _ => none
    copyErr := fun _ _ => none
    commandErr := fun _ _ => none }

/-- Collaborators of which only the `k`-th command fails, with the error
`err`. -/
def envFailAt (u : User) (k : Nat) (err : Str) : Env :=
  { envOk u with commandErr := fun j _ => if j = k then some err else none }

/-- Collaborators of which only the lookup of the current user fails. -/
def envNoUser : Env :=
  { envOk ⟨[], []⟩ with currentUser := .error "user: unknown userid 1000".toList }

/-- The superuser. -/
def rootUser : User := ⟨"0".toList, "/root".toList⟩

/-- An ordinary user with the home directory `/home/alice`. -/
def aliceUser : User := ⟨"1000".toList, "/home/alice".toList⟩

/-- The configuration text of the end-to-end scenario. -/
def textWeb : Str :=
  "lxc.idmap = u 0 100000 65536\nlxc.idmap = g 0 100000 65536".toList

/-- The entries of `textWeb`. -/
def entriesWeb : List IdmapEntry :=
  [⟨"u".toList, "0".toList, "100000".toList, "65536".toList⟩,
   ⟨"g".toList, "0".toList, "100000".toList, "65536".toList⟩]

/-- A configuration text without any mapping line. -/
def textNoMap : Str := "lxc.arch = amd64".toList

/-- A configuration text whose only mapping line has three fields. -/
def textShort : Str := "lxc.idmap = u 0 100000".toList

/-- A configuration text whose first marker line has no `=` and whose second
has three fields. -/
def textNoEqThenShort : Str := "lxc.idmap\nlxc.idmap = u 0 100000".toList

/-- A configuration text whose only line is a mapping written without `=`. -/
def textNoEq : Str := "lxc.idmap u 0 100000 65536".toList

/-- The files of a scenario: the configuration file alone, holding `text`. -/
def fsOf (text : Str) : Files := [(cfgWeb.ConfigFile, text)]

/-- The files at the moment the command loop is entered: the copy of the
configuration has been created and filled. -/
def filesAfterCopy (config : Config) (fs : Files) : Files :=
  (fs.store (configFilePath config) []).store (configFilePath config)
    (((fs.store (configFilePath config) []).contents config.ConfigFile).getD [])

/-! ## Facts about the library functions -/

theorem Split_of_not_mem (s : Str) (sep : Char) (h : sep ∉ s) : Split s sep = [s] := by
  induction s with
  | nil => rfl
  | cons c cs ih =>
    have hc : c ≠ sep := fun hc => h (by simp [hc])
    have hcs : sep ∉ cs := fun hcs => h (by simp [hcs])
    simp [Split, hc, ih hcs]

theorem Split_append (a b : Str) (sep : Char) (h : sep ∉ a) :
    Split (a ++ sep :: b) sep = a :: Split b sep := by
  induction a with
  | nil => simp [Split]
  | cons c cs ih =>
    have hc : c ≠ sep := fun hc => h (by simp [hc])
    have hcs : sep ∉ cs := fun hcs => h (by simp [hcs])
    simp [Split, hc, ih hcs]

theorem Split_fields (k c h l : Str) (hk : ' ' ∉ k) (hc : ' ' ∉ c) (hh : ' ' ∉ h)
    (hl : ' ' ∉ l) :
    Split (k ++ ' ' :: (c ++ ' ' :: (h ++ ' ' :: l))) ' ' = [k, c, h, l] := by
  rw [Split_append _ _ _ hk, Split_append _ _ _ hc, Split_append _ _ _ hh,
    Split_of_not_mem _ _ hl]

theorem parseLines_wellFormed (lines : List Str) :
    ∀ (acc : List Str) (entries : List IdmapEntry),
      List.Forall₂ WellFormed (lines.filter (fun line => Contains line marker)) entries →
      parseLines lines acc = .ok (acc ++ remapArgs entries) := by
  induction lines with
  | nil =>
    intro acc entries h
    cases h
    simp [parseLines, remapArgs]
  | cons line rest ih =>
    intro acc entries h
    by_cases hm : Contains line marker = true
    · have hf : (line :: rest).filter (fun line => Contains line marker)
          = line :: rest.filter (fun line => Contains line marker) := by
        simp [List.filter, hm]
      rw [hf] at h
      cases h with
      | cons hline hrest =>
        obtain ⟨pre, post, rfl, hpre, hpost, htrim, hk, hc, hh, hl⟩ := hline
        have hsplit : Split (pre ++ '=' :: post) '=' = [pre, post] := by
          rw [Split_append _ _ _ hpre, Split_of_not_mem _ _ hpost]
        rw [parseLines, if_pos hm, hsplit]
        simp only [List.get?, htrim, Split_fields _ _ _ _ hk.2 hc.2 hh.2 hl.2]
        simp [ih _ _ hrest, remapArgs, IdmapEntry.arg, sprintfIdmap]
    · have hf : (line :: rest).filter (fun line => Contains line marker)
          = rest.filter (fun line => Contains line marker) := by
        simp [List.filter, hm]
      rw [hf] at h
      rw [parseLines, if_neg hm]
      exact ih _ _ h

theorem remapArgs_length (entries : List IdmapEntry) :
    (remapArgs entries).length = 2 * entries.length := by
  induction entries with
  | nil => rfl
  | cons e es ih => simp [remapArgs, ih]; omega

theorem remapArgs_get (entries : List IdmapEntry) :
    ∀ (k : Nat) (e : IdmapEntry), entries[k]? = some e →
      (remapArgs entries)[2 * k]? = some "-m".toList ∧
      (remapArgs entries)[2 * k + 1]? = some e.arg := by
  induction entries with
  | nil => intro k e h; simp at h
  | cons e0 es ih =>
    intro k e h
    cases k with
    | zero =>
      simp at h
      subst h
      simp [remapArgs]
    | succ k =>
      simp at h
      have := ih k e h
      have e1 : 2 * (k + 1) = (2 * k + 1) + 1 := by omega
      rw [e1]
      simpa [remapArgs] using this

theorem JoinStrings_cons (e : Str) (rest : List Str) (sep : Str) (h : rest ≠ []) :
    JoinStrings (e :: rest) sep = e ++ sep ++ JoinStrings rest sep := by
  cases rest with
  | nil => exact absurd rfl h
  | cons f fs => rfl

theorem JoinStrings_append (xs ys : List Str) (sep : Str) (hx : xs ≠ []) (hy : ys ≠ []) :
    JoinStrings (xs ++ ys) sep = JoinStrings xs sep ++ sep ++ JoinStrings ys sep := by
  induction xs with
  | nil => exact absurd rfl hx
  | cons x rest ih =>
    cases rest with
    | nil => simpa [JoinStrings] using JoinStrings_cons x ys sep hy
    | cons f fs =>
      have h1 : JoinStrings (x :: f :: fs ++ ys) sep
          = x ++ sep ++ JoinStrings (f :: fs ++ ys) sep := rfl
      have h2 : JoinStrings (x :: f :: fs) sep = x ++ sep ++ JoinStrings (f :: fs) sep := rfl
      rw [h1, h2, ih (by simp)]
      simp [List.append_assoc]

theorem Split_JoinStrings (elems : List Str) (hne : elems ≠ [])
    (h : ∀ e ∈ elems, '/' ∉ e) : Split (JoinStrings elems "/".toList) '/' = elems := by
  induction elems with
  | nil => exact absurd rfl hne
  | cons e rest ih =>
    cases rest with
    | nil => simpa [JoinStrings] using Split_of_not_mem e '/' (h e (by simp))
    | cons f fs =>
      have h1 : JoinStrings (e :: f :: fs) "/".toList
          = e ++ '/' :: JoinStrings (f :: fs) "/".toList := by
        simp [JoinStrings]
      rw [h1, Split_append _ _ _ (h e (by simp)),
        ih (by simp) (fun x hx => h x (by simp [hx]))]

theorem cleanStep_plain (rooted : Bool) (st : List Str × Nat) (e : Str) (h : PlainElem e) :
    cleanStep rooted st e = (st.1 ++ [e], st.2) := by
  obtain ⟨h1, _, h3, h4⟩ := h
  have h3' : e ≠ ['.'] := h3
  have h4' : e ≠ ['.', '.'] := h4
  simp [cleanStep, h1, h3', h4']

theorem foldl_cleanStep_plain (rooted : Bool) (elems : List Str)
    (h : ∀ e ∈ elems, PlainElem e) :
    ∀ st : List Str × Nat, elems.foldl (cleanStep rooted) st = (st.1 ++ elems, st.2) := by
  induction elems with
  | nil => intro st; simp
  | cons e rest ih =>
    intro st
    rw [List.foldl_cons, cleanStep_plain rooted st e (h e (by simp)),
      ih (fun x hx => h x (by simp [hx]))]
    simp

theorem JoinStrings_ne_nil (elems : List Str) (hne : elems ≠ [])
    (h : ∀ e ∈ elems, PlainElem e) : JoinStrings elems "/".toList ≠ [] := by
  cases elems with
  | nil => exact absurd rfl hne
  | cons e rest =>
    have he : e ≠ [] := (h e (by simp)).1
    cases rest with
    | nil => simpa [JoinStrings] using he
    | cons f fs => simp [JoinStrings, he]

theorem JoinStrings_head (elems : List Str) (hne : elems ≠ [])
    (h : ∀ e ∈ elems, PlainElem e) :
    ((JoinStrings elems "/".toList).head? == some '/') = false := by
  cases elems with
  | nil => exact absurd rfl hne
  | cons e rest =>
    obtain ⟨he, hs, _, _⟩ := h e (by simp)
    cases e with
    | nil => exact absurd rfl he
    | cons c cs =>
      have hc : c ≠ '/' := fun hc => hs (by simp [hc])
      cases rest with
      | nil => simpa [JoinStrings] using hc
      | cons f fs => simpa [JoinStrings] using hc

theorem Clean_pathOf (rooted : Bool) (elems : List Str) (hne : elems ≠ [])
    (h : ∀ e ∈ elems, PlainElem e) : Clean (pathOf rooted elems) = pathOf rooted elems := by
  have hsplit : Split (JoinStrings elems ['/']) '/' = elems :=
    Split_JoinStrings elems hne (fun e he => (h e he).2.1)
  have hnn : JoinStrings elems ['/'] ≠ [] := JoinStrings_ne_nil elems hne h
  cases rooted with
  | true =>
    have hp : pathOf true elems = '/' :: JoinStrings elems ['/'] := rfl
    rw [hp]
    unfold Clean
    simp [Split, hsplit, cleanStep, foldl_cleanStep_plain true elems h]
  | false =>
    have hp : pathOf false elems = JoinStrings elems ['/'] := rfl
    have hhead : ((JoinStrings elems ['/']).head? == some '/') = false :=
      JoinStrings_head elems hne h
    have hhead' : ¬ (JoinStrings elems ['/']).head? = some '/' := by simpa using hhead
    rw [hp]
    unfold Clean
    simp [hnn, hhead', hsplit, foldl_cleanStep_plain _ elems h]

theorem pathOf_ne_nil (rooted : Bool) (elems : List Str) (hne : elems ≠ [])
    (h : ∀ e ∈ elems, PlainElem e) : pathOf rooted elems ≠ [] := by
  have : JoinStrings elems ['/'] ≠ [] := JoinStrings_ne_nil elems hne h
  cases rooted <;> simp [pathOf, this]

theorem pathOf_append (rooted : Bool) (elems more : List Str) (hne : elems ≠ [])
    (hm : more ≠ []) :
    pathOf rooted (elems ++ more)
      = pathOf rooted elems ++ '/' :: JoinStrings more "/".toList := by
  unfold pathOf
  rw [JoinStrings_append elems more _ hne hm]
  simp [List.append_assoc]

theorem Join_pathOf (rooted : Bool) (elems more : List Str) (hne : elems ≠ [])
    (h : ∀ e ∈ elems, PlainElem e) (hm : more ≠ []) (hmore : ∀ e ∈ more, PlainElem e) :
    Join (pathOf rooted elems :: more)
      = pathOf rooted elems ++ '/' :: JoinStrings more "/".toList := by
  have hp := pathOf_ne_nil rooted elems hne h
  have hall : ∀ e ∈ elems ++ more, PlainElem e := by
    intro e he
    rcases List.mem_append.mp he with he | he
    · exact h e he
    · exact hmore e he
  have hjoin : JoinStrings (pathOf rooted elems :: more) "/".toList
      = pathOf rooted (elems ++ more) := by
    rw [JoinStrings_cons _ _ _ hm, pathOf_append rooted elems more hne hm]
    simp [List.append_assoc]
  rw [Join, if_neg hp, hjoin, Clean_pathOf rooted (elems ++ more) (by simp [hne]) hall,
    pathOf_append rooted elems more hne hm]

/-! ## Identity-map parsing -/

/-- C1: when the lines of the configuration text that contain the marker
`lxc.idmap` are all well-formed (one `=`, then four non-empty fields separated
by single blanks once trimmed) and there are n >= 1 of them, the parsing loop
ends with a remap list `perms` of exactly 2n elements, and for the k-th such
line, with fields kind, cid, hid, len, `perms[2k]` is `-m` and `perms[2k+1]` is
`kind:cid:hid:len`; the other lines contribute nothing. -/
theorem idmap_parse_well_formed (text : Str) (entries : List IdmapEntry)
    (hwf : List.Forall₂ WellFormed (markerLines text) entries)
    (hn : 1 ≤ entries.length) :
    ∃ perms, parseIdmap text = .ok perms ∧ perms ≠ [] ∧
      perms.length = 2 * entries.length ∧
      ∀ (k : Nat) (e : IdmapEntry), entries[k]? = some e →
        perms[2 * k]? = some "-m".toList ∧ perms[2 * k + 1]? = some e.arg := by
  refine ⟨remapArgs entries, ?_, ?_, remapArgs_length entries, remapArgs_get entries⟩
  · have := parseLines_wellFormed (Split text (Char.ofNat 10)) [] entries hwf
    simpa [parseIdmap] using this
  · cases entries with
    | nil => simp at hn
    | cons e es => simp [remapArgs]

/-- The witness of `idmap_parse_well_formed`: the two mapping lines of the
end-to-end scenario. -/
theorem idmap_parse_well_formed_witness :
    ∃ perms, parseIdmap textWeb = .ok perms ∧ perms ≠ [] ∧
      perms.length = 2 * entriesWeb.length ∧
      ∀ (k : Nat) (e : IdmapEntry), entriesWeb[k]? = some e →
        perms[2 * k]? = some "-m".toList ∧ perms[2 * k + 1]? = some e.arg :=
  idmap_parse_well_formed textWeb entriesWeb
    (by
      have h : markerLines textWeb =
          ["lxc.idmap = u 0 100000 65536".toList, "lxc.idmap = g 0 100000 65536".toList] := by
        decide
      rw [h]
      exact List.Forall₂.cons
        ⟨"lxc.idmap ".toList, " u 0 100000 65536".toList, by decide, by decide, by decide,
          by decide, by decide, by decide, by decide, by decide⟩
        (List.Forall₂.cons
          ⟨"lxc.idmap ".toList, " g 0 100000 65536".toList, by decide, by decide, by decide,
            by decide, by decide, by decide, by decide, by decide⟩
          List.Forall₂.nil))
    (by decide)

/-! ## Facts about the run -/

theorem parseLines_no_marker (lines : List Str) (acc : List Str)
    (h : lines.filter (fun line => Contains line marker) = []) :
    parseLines lines acc = .ok acc := by
  induction lines with
  | nil => rfl
  | cons line rest ih =>
    by_cases hm : Contains line marker = true
    · simp [List.filter, hm] at h
    · have hrest : rest.filter (fun line => Contains line marker) = [] := by
        simpa [List.filter, hm] using h
      rw [parseLines, if_neg hm]
      exact ih hrest

theorem contents_store_same (fs : Files) (p d : Str) :
    (fs.store p d).contents p = some d := by
  simp [Files.store, Files.contents]

theorem contents_store_other (fs : Files) (p q d : Str) (h : q ≠ p) :
    (fs.store p d).contents q = fs.contents q := by
  have hpq : (p == q) = false := by
    simpa using fun e : p = q => h e.symm
  have hpred : (fun f : Str × Str => decide ((!(f.1 == p)) = true ∧ (f.1 == q) = true))
      = (fun f : Str × Str => f.1 == q) := by
    funext f
    by_cases hq : f.1 = q
    · have hp : ¬ f.1 = p := fun e => h (hq ▸ e)
      simp [hq, hp, h]
    · simp [hq]
  unfold Files.store Files.contents
  rw [List.find?_cons, hpq, List.find?_filter, hpred]

theorem filterMap_command (cmds : List (List Str)) :
    (cmds.map Event.command).filterMap
      (fun e => match e with | .command argv => some argv | _ => none) = cmds := by
  induction cmds with
  | nil => rfl
  | cons c cs ih => simp [List.filterMap, ih]

theorem runCommands_files (env : Env) (fs : Files) (cmds : List (List Str)) :
    ∀ (k : Nat) (events : List Event), (runCommands env fs k cmds events).files = fs := by
  induction cmds with
  | nil => intro k events; rfl
  | cons c cs ih =>
    intro k events
    rw [runCommands]
    cases env.commandErr k c with
    | none => exact ih _ _
    | some err => rfl

theorem runCommands_all_ok (env : Env) (fs : Files) (cmds : List (List Str)) :
    ∀ (k : Nat) (events : List Event),
      (∀ (j : Nat) (argv : List Str), cmds[j]? = some argv →
        env.commandErr (k + j) argv = none) →
      runCommands env fs k cmds events =
        { events := events ++ cmds.map Event.command
          files := fs
          ending := .returned .ActionContinue } := by
  induction cmds with
  | nil => intro k events _; simp [runCommands]
  | cons c cs ih =>
    intro k events h
    have h0 : env.commandErr k c = none := by simpa using h 0 c (by simp)
    have hrest : ∀ (j : Nat) (argv : List Str), cs[j]? = some argv →
        env.commandErr (k + 1 + j) argv = none := by
      intro j argv hj
      have := h (j + 1) argv (by simpa using hj)
      rwa [show k + (j + 1) = k + 1 + j by omega] at this
    rw [runCommands]
    simp only [h0]
    rw [ih (k + 1) _ hrest]
    simp

theorem runCommands_fail (env : Env) (fs : Files) (cmds : List (List Str)) :
    ∀ (k : Nat) (events : List Event) (i : Nat) (argv : List Str) (err : Str),
      (∀ (j : Nat) (argv' : List Str), j < i → cmds[j]? = some argv' →
        env.commandErr (k + j) argv' = none) →
      cmds[i]? = some argv → env.commandErr (k + i) argv = some err →
      runCommands env fs k cmds events =
        halt (events ++ (cmds.take (i + 1)).map Event.command) fs (errExport err argv) := by
  induction cmds with
  | nil => intro k events i argv err _ hi; simp at hi
  | cons c cs ih =>
    intro k events i argv err hprev hi herr
    cases i with
    | zero =>
      simp at hi
      subst hi
      have herr0 : env.commandErr k c = some err := by simpa using herr
      rw [runCommands]
      simp [herr0]
    | succ i =>
      have h0 : env.commandErr k c = none := by
        simpa using hprev 0 c (by omega) (by simp)
      have hrest : ∀ (j : Nat) (argv' : List Str), j < i → cs[j]? = some argv' →
          env.commandErr (k + 1 + j) argv' = none := by
        intro j argv' hj hget
        have := hprev (j + 1) argv' (by omega) (by simpa using hget)
        rwa [show k + (j + 1) = k + 1 + j by omega] at this
      have hi' : cs[i]? = some argv := by simpa using hi
      have herr' : env.commandErr (k + 1 + i) argv = some err := by
        rwa [show k + (i + 1) = k + 1 + i by omega] at herr
      rw [runCommands]
      simp only [h0]
      rw [ih (k + 1) _ i argv err hrest hi' herr']
      simp

theorem Run_reaches_commands (env : Env) (config : Config) (fs : Files) (user : User)
    (text : Str) (perms : List Str)
    (hu : env.currentUser = .ok user)
    (hc : env.createErr (configFilePath config) = none)
    (hr : ReadFile env (fs.store (configFilePath config) []) config.ConfigFile = .ok text)
    (hp : parseIdmap text = .ok perms) (hne : perms ≠ [])
    (ho : Open env (fs.store (configFilePath config) []) config.ConfigFile = none)
    (hcp : env.copyErr (configFilePath config) config.ConfigFile = none) :
    Run env config fs =
      runCommands env (filesAfterCopy config fs) 0 (commandPlan config user perms)
        [.uiSay "Exporting container...".toList] := by
  have hlen : ¬ perms.length = 0 := by
    intro h
    exact hne (List.length_eq_zero.mp h)
  unfold Run
  simp only [hu, hc, hr, hp, ho, hcp, hlen, if_false, filesAfterCopy]

theorem filterMap_stored_command (cmds : List (List Str)) :
    (cmds.map Event.command).filterMap
      (fun e =>
        match e with
        | .statePut key err => if key = "error".toList then some err else none
        | _ => none) = [] := by
  induction cmds with
  | nil => rfl
  | cons c cs ih => simp [List.filterMap, ih]

theorem filterMap_reported_command (cmds : List (List Str)) :
    (cmds.map Event.command).filterMap
      (fun e => match e with | .uiError msg => some msg | _ => none) = [] := by
  induction cmds with
  | nil => rfl
  | cons c cs ih => simp [List.filterMap, ih]

theorem HasPrefix_append (b c : Str) : HasPrefix (b ++ c) b = true := by
  induction b with
  | nil => cases c <;> rfl
  | cons x xs ih => simp [HasPrefix, ih]

theorem Contains_of_HasPrefix (s sub : Str) (h : HasPrefix s sub = true) :
    Contains s sub = true := by
  cases s with
  | nil => simpa [Contains] using h
  | cons c cs => simp [Contains, h]

theorem Contains_append_left (a s sub : Str) (h : Contains s sub = true) :
    Contains (a ++ s) sub = true := by
  induction a with
  | nil => simpa using h
  | cons x xs ih =>
    have : Contains (x :: (xs ++ s)) sub = true := by simp [Contains, ih]
    simpa using this

theorem Contains_middle (a b c : Str) : Contains (a ++ (b ++ c)) b = true :=
  Contains_append_left a (b ++ c) b (Contains_of_HasPrefix _ _ (HasPrefix_append b c))

theorem halt_commands (m : Str) (cmds : List (List Str)) (fs : Files) (e : Str) :
    (halt ([Event.uiSay m] ++ cmds.map Event.command) fs e).commands = cmds := by
  unfold halt Outcome.commands
  rw [List.filterMap_append, List.filterMap_append, filterMap_command]
  simp

theorem halt_storedErrors (m : Str) (cmds : List (List Str)) (fs : Files) (e : Str) :
    (halt ([Event.uiSay m] ++ cmds.map Event.command) fs e).storedErrors = [e] := by
  unfold halt Outcome.storedErrors
  rw [List.filterMap_append, List.filterMap_append, filterMap_stored_command]
  simp

theorem halt_reportedErrors (m : Str) (cmds : List (List Str)) (fs : Files) (e : Str) :
    (halt ([Event.uiSay m] ++ cmds.map Event.command) fs e).reportedErrors = [e] := by
  unfold halt Outcome.reportedErrors
  rw [List.filterMap_append, List.filterMap_append, filterMap_reported_command]
  simp

theorem parseLines_append_ok (good more : List Str) :
    ∀ (acc acc' : List Str), parseLines good acc = .ok acc' →
      parseLines (good ++ more) acc = parseLines more acc' := by
  induction good with
  | nil =>
    intro acc acc' h
    simp only [parseLines, ParseResult.ok.injEq] at h
    subst h
    rfl
  | cons line rest ih =>
    intro acc acc' h
    rw [List.cons_append, parseLines]
    rw [parseLines] at h
    by_cases hm : Contains line marker = true
    · rw [if_pos hm] at h ⊢
      cases hr : (Split line '=').get? 1 with
      | none =>
        rw [hr] at h
        cases h
      | some r1 =>
        rw [hr] at h
        simp only at h ⊢
        by_cases hl : (Split (TrimSpace r1) ' ').length ≠ 4
        · rw [if_pos hl] at h
          cases h
        · rw [if_neg hl] at h ⊢
          exact ih _ _ h
    · rw [if_neg hm] at h ⊢
      exact ih _ _ h

/-- What holds of a malformed mapping line: when the marker lines before it
are processed without fault and the line has an element 1 after splitting on
`=` whose trimmed text has a field count other than four, the run ends in
`log.Fatal` with the parse error that quotes the line, and no command is
issued. -/
theorem first_malformed_line_is_fatal (env : Env) (config : Config) (fs : Files)
    (user : User) (text : Str) (good rest : List Str) (bad r1 : Str) (acc : List Str)
    (hu : env.currentUser = .ok user)
    (hc : env.createErr (configFilePath config) = none)
    (hr : ReadFile env (fs.store (configFilePath config) []) config.ConfigFile = .ok text)
    (hlines : Split text (Char.ofNat 10) = good ++ bad :: rest)
    (hgood : parseLines good [] = .ok acc)
    (hm : Contains bad marker = true)
    (h1 : (Split bad '=').get? 1 = some r1)
    (hcount : (Split (TrimSpace r1) ' ').length ≠ 4) :
    (Run env config fs).events = [.logFatal (errParseIdmap bad)] ∧
    (Run env config fs).ending = .exited 1 ∧
    (Run env config fs).commands = [] ∧
    Contains (errParseIdmap bad) bad = true := by
  have hp : parseIdmap text = .fatal (errParseIdmap bad) := by
    rw [parseIdmap, hlines, parseLines_append_ok good _ _ _ hgood, parseLines, if_pos hm, h1]
    simp only
    rw [if_pos hcount]
  refine ⟨?_, ?_, ?_, ?_⟩
  · unfold Run
    simp only [hu, hc, hr, hp]
  · unfold Run
    simp only [hu, hc, hr, hp]
  · unfold Run
    simp only [hu, hc, hr, hp]
    rfl
  · have := Contains_middle ("Error parsing idmap: ".toList ++ [dquote]) bad [dquote]
    simpa [errParseIdmap, List.append_assoc] using this

theorem runCommands_shape (env : Env) (fs : Files) (cmds : List (List Str)) :
    ∀ (k : Nat) (events : List Event), ∃ issued : List (List Str),
      runCommands env fs k cmds events =
          { events := events ++ issued.map Event.command
            files := fs
            ending := .returned .ActionContinue } ∨
        ∃ err, runCommands env fs k cmds events =
          halt (events ++ issued.map Event.command) fs err := by
  induction cmds with
  | nil =>
    intro k events
    exact ⟨[], Or.inl (by simp [runCommands])⟩
  | cons c cs ih =>
    intro k events
    rw [runCommands]
    cases env.commandErr k c with
    | some err => exact ⟨[c], Or.inr ⟨errExport err c, by simp⟩⟩
    | none =>
      obtain ⟨issued, h⟩ := ih (k + 1) (events ++ [Event.command c])
      refine ⟨c :: issued, ?_⟩
      simpa [List.append_assoc] using h

/-- What holds of the halt contract: a run that returns halt has stored one
error in the state bag under `error` and reported the same message through
`ui.Error`; a run that returns continue has stored and reported none. -/
theorem returned_runs_keep_halt_contract (env : Env) (config : Config) (fs : Files) :
    ((Run env config fs).ending = .returned .ActionHalt →
      ∃ err, (Run env config fs).storedErrors = [err] ∧
        (Run env config fs).reportedErrors = [err]) ∧
    ((Run env config fs).ending = .returned .ActionContinue →
      (Run env config fs).storedErrors = [] ∧ (Run env config fs).reportedErrors = []) := by
  have hhalt : ∀ (fs' : Files) (msg : Str),
      ((halt [] fs' msg).ending = .returned .ActionHalt →
        ∃ err, (halt [] fs' msg).storedErrors = [err] ∧
          (halt [] fs' msg).reportedErrors = [err]) ∧
      ((halt [] fs' msg).ending = .returned .ActionContinue →
        (halt [] fs' msg).storedErrors = [] ∧ (halt [] fs' msg).reportedErrors = []) := by
    intro fs' msg
    refine ⟨fun _ => ⟨msg, ?_, ?_⟩, fun h => ?_⟩
    · simp [halt, Outcome.storedErrors]
    · simp [halt, Outcome.reportedErrors]
    · simp [halt] at h
  have hcmds : ∀ (fs' : Files) (cmds : List (List Str)) (m : Str),
      ((runCommands env fs' 0 cmds [Event.uiSay m]).ending = .returned .ActionHalt →
        ∃ err, (runCommands env fs' 0 cmds [Event.uiSay m]).storedErrors = [err] ∧
          (runCommands env fs' 0 cmds [Event.uiSay m]).reportedErrors = [err]) ∧
      ((runCommands env fs' 0 cmds [Event.uiSay m]).ending = .returned .ActionContinue →
        (runCommands env fs' 0 cmds [Event.uiSay m]).storedErrors = [] ∧
          (runCommands env fs' 0 cmds [Event.uiSay m]).reportedErrors = []) := by
    intro fs' cmds m
    obtain ⟨issued, h | ⟨err, h⟩⟩ := runCommands_shape env fs' cmds 0 [Event.uiSay m]
    · rw [h]
      refine ⟨fun hh => by simp at hh, fun _ => ⟨?_, ?_⟩⟩
      · simp [Outcome.storedErrors, List.filterMap_append, filterMap_stored_command]
      · simp [Outcome.reportedErrors, List.filterMap_append, filterMap_reported_command]
    · rw [h]
      exact ⟨fun _ => ⟨err, halt_storedErrors _ _ _ _, halt_reportedErrors _ _ _ _⟩,
        fun hh => by simp [halt] at hh⟩
  unfold Run
  cases env.currentUser with
  | error e => simp
  | ok user =>
    dsimp only
    cases env.createErr (configFilePath config) with
    | some err => exact hhalt _ _
    | none =>
      dsimp only
      cases ReadFile env (fs.store (configFilePath config) []) config.ConfigFile with
      | error err => exact hhalt _ _
      | ok text =>
        dsimp only
        cases parseIdmap text with
        | indexFault line => simp
        | fatal err => simp
        | ok perms =>
          dsimp only
          by_cases hlen : perms.length = 0
          · rw [if_pos hlen]
            simp
          · rw [if_neg hlen]
            cases Open env (fs.store (configFilePath config) []) config.ConfigFile with
            | some err => exact hhalt _ _
            | none =>
              dsimp only
              cases env.copyErr (configFilePath config) config.ConfigFile with
              | some err => exact hhalt _ _
              | none => exact hcmds _ _ _

/-! ## The command plan -/

/-- C2: in a run in which the creation of the artifact, the reading of the
configuration, the parsing and the copy succeed and every command of the plan
succeeds, exactly four commands are issued, in the order stop, relax
permissions, archive, mark executable, and the step returns continue. In the
scenario of container `web01`, output directory `/tmp/out` and the two mapping
lines, the archiver's arguments contain the run
`-m u:0:100000:65536 -m g:0:100000:65536` and name the archive
`/tmp/out/rootfs.tar.gz`. -/
theorem command_plan_success :
    (∀ (env : Env) (config : Config) (fs : Files) (user : User) (text : Str)
        (perms : List Str),
      env.currentUser = .ok user →
      env.createErr (configFilePath config) = none →
      ReadFile env (fs.store (configFilePath config) []) config.ConfigFile = .ok text →
      parseIdmap text = .ok perms → perms ≠ [] →
      Open env (fs.store (configFilePath config) []) config.ConfigFile = none →
      env.copyErr (configFilePath config) config.ConfigFile = none →
      (∀ (k : Nat) (argv : List Str),
        (commandPlan config user perms)[k]? = some argv → env.commandErr k argv = none) →
      (Run env config fs).commands =
        [ ["lxc-stop".toList, "--name".toList, config.ContainerName],
          ["sudo".toList, "chmod".toList, "-R".toList, "0777".toList, config.OutputDir],
          ["lxc-usernsexec".toList] ++ perms ++
            ["--".toList, "tar".toList, "-C".toList,
              containerDir user config.ContainerName ++ "/rootfs".toList,
              "--numeric-owner".toList, "--anchored".toList,
              "--exclude=./rootfs/dev/log".toList, "-czf".toList,
              Join [config.OutputDir, "rootfs.tar.gz".toList], "./".toList],
          ["chmod".toList, "+x".toList, Join [config.OutputDir, "lxc-config".toList]] ] ∧
      (Run env config fs).ending = .returned .ActionContinue) ∧
    ((Run (envOk rootUser) cfgWeb (fsOf textWeb)).commands =
        [ ["lxc-stop".toList, "--name".toList, "web01".toList],
          ["sudo".toList, "chmod".toList, "-R".toList, "0777".toList, "/tmp/out".toList],
          ["lxc-usernsexec".toList, "-m".toList, "u:0:100000:65536".toList, "-m".toList,
            "g:0:100000:65536".toList, "--".toList, "tar".toList, "-C".toList,
            "/var/lib/lxc/web01/rootfs".toList, "--numeric-owner".toList,
            "--anchored".toList, "--exclude=./rootfs/dev/log".toList, "-czf".toList,
            "/tmp/out/rootfs.tar.gz".toList, "./".toList],
          ["chmod".toList, "+x".toList, "/tmp/out/lxc-config".toList] ] ∧
      (Run (envOk rootUser) cfgWeb (fsOf textWeb)).ending = .returned .ActionContinue ∧
      ∃ argv pre post, (Run (envOk rootUser) cfgWeb (fsOf textWeb)).commands[2]? = some argv ∧
        argv = pre ++ ["-m".toList, "u:0:100000:65536".toList, "-m".toList,
          "g:0:100000:65536".toList] ++ post ∧
        "/tmp/out/rootfs.tar.gz".toList ∈ post) := by
  refine ⟨?_, by decide, by decide, ?_⟩
  · intro env config fs user text perms hu hc hr hp hne ho hcp hcmd
    rw [Run_reaches_commands env config fs user text perms hu hc hr hp hne ho hcp]
    rw [runCommands_all_ok env _ _ 0 _ (by simpa using hcmd)]
    refine ⟨?_, rfl⟩
    simp only [Outcome.commands, List.filterMap_append, filterMap_command]
    rfl
  · exact ⟨["lxc-usernsexec".toList, "-m".toList, "u:0:100000:65536".toList, "-m".toList,
        "g:0:100000:65536".toList, "--".toList, "tar".toList, "-C".toList,
        "/var/lib/lxc/web01/rootfs".toList, "--numeric-owner".toList,
        "--anchored".toList, "--exclude=./rootfs/dev/log".toList, "-czf".toList,
        "/tmp/out/rootfs.tar.gz".toList, "./".toList], ["lxc-usernsexec".toList],
      ["--".toList, "tar".toList, "-C".toList,
        "/var/lib/lxc/web01/rootfs".toList, "--numeric-owner".toList,
        "--anchored".toList, "--exclude=./rootfs/dev/log".toList, "-czf".toList,
        "/tmp/out/rootfs.tar.gz".toList, "./".toList], by decide, by decide, by decide⟩

/-- The witness of `command_plan_success`: the hypotheses of its general part
hold in the end-to-end scenario, run by the superuser. -/
theorem command_plan_success_witness :
    (Run (envOk rootUser) cfgWeb (fsOf textWeb)).commands =
        commandPlan cfgWeb rootUser (remapArgs entriesWeb) ∧
      (Run (envOk rootUser) cfgWeb (fsOf textWeb)).ending = .returned .ActionContinue :=
  command_plan_success.1 (envOk rootUser) cfgWeb (fsOf textWeb) rootUser textWeb
    (remapArgs entriesWeb) rfl rfl rfl (by decide) (by decide) (by decide) rfl
    (fun _ _ _ => rfl)

/-- C3: when the run reaches the command plan, the commands before the k-th
succeed and the k-th fails with the error `err`, exactly the commands 0..k are
issued, in plan order, the step returns halt, and the error it stores and
reports contains both `err` and the full argument vector of the k-th
command. -/
theorem command_fail_fast (env : Env) (config : Config) (fs : Files) (user : User)
    (text : Str) (perms : List Str) (k : Nat) (argv : List Str) (err : Str)
    (hu : env.currentUser = .ok user)
    (hc : env.createErr (configFilePath config) = none)
    (hr : ReadFile env (fs.store (configFilePath config) []) config.ConfigFile = .ok text)
    (hp : parseIdmap text = .ok perms) (hne : perms ≠ [])
    (ho : Open env (fs.store (configFilePath config) []) config.ConfigFile = none)
    (hcp : env.copyErr (configFilePath config) config.ConfigFile = none)
    (hk : (commandPlan config user perms)[k]? = some argv)
    (hprev : ∀ (j : Nat) (argv' : List Str), j < k →
      (commandPlan config user perms)[j]? = some argv' → env.commandErr j argv' = none)
    (hfail : env.commandErr k argv = some err) :
    k < 4 ∧
    (Run env config fs).commands = (commandPlan config user perms).take (k + 1) ∧
    (Run env config fs).ending = .returned .ActionHalt ∧
    (Run env config fs).storedErrors = [errExport err argv] ∧
    (Run env config fs).reportedErrors = [errExport err argv] ∧
    Contains (errExport err argv) err = true ∧
    Contains (errExport err argv) (fmtSlice argv) = true := by
  have hk4 : k < 4 := by
    have h := (List.getElem?_eq_some.mp hk).1
    simpa [commandPlan] using h
  rw [Run_reaches_commands env config fs user text perms hu hc hr hp hne ho hcp]
  rw [runCommands_fail env _ _ 0 _ k argv err (by simpa using hprev) hk (by simpa using hfail)]
  refine ⟨hk4, ?_, rfl, ?_, ?_, ?_, ?_⟩
  · exact halt_commands _ _ _ _
  · exact halt_storedErrors _ _ _ _
  · exact halt_reportedErrors _ _ _ _
  · have := Contains_middle "Error exporting container: ".toList err
      (", command: ".toList ++ fmtSlice argv)
    simpa [errExport, List.append_assoc] using this
  · have := Contains_middle ("Error exporting container: ".toList ++ err ++ ", command: ".toList)
      (fmtSlice argv) []
    simpa [errExport, List.append_assoc] using this

/-- The witness of `command_fail_fast`: in the end-to-end scenario the archiver,
command 2 of the plan, fails with `exit status 2`. -/
theorem command_fail_fast_witness :
    2 < 4 ∧
    (Run (envFailAt rootUser 2 "exit status 2".toList) cfgWeb (fsOf textWeb)).commands =
      (commandPlan cfgWeb rootUser (remapArgs entriesWeb)).take (2 + 1) ∧
    (Run (envFailAt rootUser 2 "exit status 2".toList) cfgWeb (fsOf textWeb)).ending =
      .returned .ActionHalt :=
  have h := command_fail_fast (envFailAt rootUser 2 "exit status 2".toList) cfgWeb
    (fsOf textWeb) rootUser textWeb (remapArgs entriesWeb) 2
    (["lxc-usernsexec".toList] ++ remapArgs entriesWeb ++
      ["--".toList, "tar".toList, "-C".toList,
        containerDir rootUser cfgWeb.ContainerName ++ "/rootfs".toList,
        "--numeric-owner".toList, "--anchored".toList,
        "--exclude=./rootfs/dev/log".toList, "-czf".toList, outputPath cfgWeb, "./".toList])
    "exit status 2".toList rfl rfl rfl (by decide) (by decide) (by decide) rfl rfl
    (fun j _ hj _ => by
      show (if j = 2 then some _ else none) = none
      rw [if_neg (by omega)])
    rfl
  ⟨h.1, h.2.1, h.2.2.1⟩

/-! ## Failures of the parsing stage -/

/-- C5: when the configuration text that was read has no line containing the
marker `lxc.idmap` (the empty file included), the export fails with the error
of the missing identity mappings, raised through `log.Fatal`, which ends the
process, and no external command is issued. -/
theorem no_mappings_fails (env : Env) (config : Config) (fs : Files) (user : User)
    (text : Str)
    (hu : env.currentUser = .ok user)
    (hc : env.createErr (configFilePath config) = none)
    (hr : ReadFile env (fs.store (configFilePath config) []) config.ConfigFile = .ok text)
    (hnone : markerLines text = []) :
    (Run env config fs).events = [.logFatal errNoIdmap] ∧
    (Run env config fs).ending = .exited 1 ∧
    (Run env config fs).commands = [] := by
  have hp : parseIdmap text = .ok [] := parseLines_no_marker _ [] hnone
  unfold Run
  simp only [hu, hc, hr, hp]
  exact ⟨rfl, rfl, rfl⟩

/-- The witness of `no_mappings_fails`: the empty configuration file. -/
theorem no_mappings_fails_witness :
    (Run (envOk rootUser) cfgWeb (fsOf [])).events = [.logFatal errNoIdmap] ∧
    (Run (envOk rootUser) cfgWeb (fsOf [])).ending = .exited 1 ∧
    (Run (envOk rootUser) cfgWeb (fsOf [])).commands = [] :=
  no_mappings_fails (envOk rootUser) cfgWeb (fsOf []) rootUser [] rfl rfl rfl (by decide)

/-- C4, at a text the claim covers: the first line contains the marker and no
`=`, the second is the three-field line of the specification. The run does not
fail with the parse error of either line: the index expression `r[1]` faults on
the first, the step panics, and nothing is logged, stored or reported. -/
theorem malformed_line_index_fault :
    markerLines textNoEqThenShort = ["lxc.idmap".toList, "lxc.idmap = u 0 100000".toList] ∧
    parseIdmap textNoEqThenShort = .indexFault "lxc.idmap".toList ∧
    (Run (envOk rootUser) cfgWeb (fsOf textNoEqThenShort)).ending =
      .panicked indexOutOfRange ∧
    (Run (envOk rootUser) cfgWeb (fsOf textNoEqThenShort)).events = [] := by
  decide

/-- C6, on the two failures of the parsing stage: for the three-field line of
the specification and for a text without mapping lines the run ends in the
process exit of `log.Fatal`; it returns no action, stores no error in the state
bag and reports none through `ui.Error`. -/
theorem parse_failures_do_not_halt :
    (Run (envOk rootUser) cfgWeb (fsOf textShort)).events =
      [.logFatal (errParseIdmap textShort)] ∧
    (Run (envOk rootUser) cfgWeb (fsOf textShort)).ending = .exited 1 ∧
    (Run (envOk rootUser) cfgWeb (fsOf textShort)).storedErrors = [] ∧
    (Run (envOk rootUser) cfgWeb (fsOf textShort)).reportedErrors = [] ∧
    (Run (envOk rootUser) cfgWeb (fsOf textNoMap)).events = [.logFatal errNoIdmap] ∧
    (Run (envOk rootUser) cfgWeb (fsOf textNoMap)).ending = .exited 1 ∧
    (Run (envOk rootUser) cfgWeb (fsOf textNoMap)).storedErrors = [] ∧
    (Run (envOk rootUser) cfgWeb (fsOf textNoMap)).reportedErrors = [] := by
  decide

/-- C8: when the lookup of the current user fails, the run logs that it falls
back to `/var/lib/lxc` and then panics on the nil user; no container directory
is computed, no file is created and no command is issued. -/
theorem user_lookup_failure_panics :
    (Run envNoUser cfgWeb (fsOf textWeb)).events =
      [.logPrint "Cannot find current user. Falling back to /var/lib/lxc...".toList] ∧
    (Run envNoUser cfgWeb (fsOf textWeb)).ending = .panicked nilDereference ∧
    (Run envNoUser cfgWeb (fsOf textWeb)).commands = [] ∧
    (Run envNoUser cfgWeb (fsOf textWeb)).files = fsOf textWeb := by
  decide

/-- C10: on a line that contains the marker and no `=`, the parsing loop ends
in the fault of the index expression `r[1]`, not in a parse error, and the run
panics. -/
theorem marker_line_without_eq_faults :
    Split textNoEq '=' = [textNoEq] ∧
    parseIdmap textNoEq = .indexFault textNoEq ∧
    (Run (envOk rootUser) cfgWeb (fsOf textNoEq)).ending = .panicked indexOutOfRange ∧
    (Run (envOk rootUser) cfgWeb (fsOf textNoEq)).events = [] := by
  decide

/-! ## The copy of the configuration -/

/-- C9, as stated, fails: for a non-empty configuration file without mapping
lines, at a path other than the artifact's, and collaborators that never fail,
the artifact exists after the run and is empty. -/
theorem config_copy_counterexample :
    textNoMap ≠ [] ∧
    (fsOf textNoMap).contents cfgWeb.ConfigFile = some textNoMap ∧
    cfgWeb.ConfigFile ≠ configFilePath cfgWeb ∧
    (envOk rootUser).createErr (configFilePath cfgWeb) = none ∧
    (Run (envOk rootUser) cfgWeb (fsOf textNoMap)).files.contents (configFilePath cfgWeb)
      = some [] ∧
    (Run (envOk rootUser) cfgWeb (fsOf textNoMap)).files.contents (configFilePath cfgWeb)
      ≠ some textNoMap := by
  decide

/-- C9, amended: when the configuration file, at a path other than the
artifact's, holds `text`, the parsing of `text` gives a non-empty remap list,
and the creation, the reading, the opening and the copy succeed, then after the
run the artifact `OutputDir/lxc-config` holds exactly `text`, whether or not the
commands succeed. -/
theorem config_copy_round_trip (env : Env) (config : Config) (fs : Files) (user : User)
    (text : Str) (perms : List Str)
    (hu : env.currentUser = .ok user)
    (hc : env.createErr (configFilePath config) = none)
    (hsrc : fs.contents config.ConfigFile = some text)
    (hdist : config.ConfigFile ≠ configFilePath config)
    (hread : env.readErr config.ConfigFile = none)
    (hp : parseIdmap text = .ok perms) (hne : perms ≠ [])
    (hopen : env.openErr config.ConfigFile = none)
    (hcp : env.copyErr (configFilePath config) config.ConfigFile = none) :
    (Run env config fs).files.contents (configFilePath config) = some text := by
  have hsrc1 : (fs.store (configFilePath config) []).contents config.ConfigFile = some text := by
    rw [contents_store_other _ _ _ _ hdist, hsrc]
  have hr : ReadFile env (fs.store (configFilePath config) []) config.ConfigFile = .ok text := by
    simp only [ReadFile, hread, hsrc1]
  have ho : Open env (fs.store (configFilePath config) []) config.ConfigFile = none := by
    simp only [Open, hopen, hsrc1]
  rw [Run_reaches_commands env config fs user text perms hu hc hr hp hne ho hcp,
    runCommands_files, filesAfterCopy, contents_store_same, hsrc1]
  rfl

/-- The witness of `config_copy_round_trip`: the end-to-end scenario. -/
theorem config_copy_round_trip_witness :
    (Run (envOk rootUser) cfgWeb (fsOf textWeb)).files.contents (configFilePath cfgWeb)
      = some textWeb :=
  config_copy_round_trip (envOk rootUser) cfgWeb (fsOf textWeb) rootUser textWeb
    (remapArgs entriesWeb) rfl rfl (by decide) (by decide) rfl (by decide) (by decide) rfl rfl

/-! ## Config resolution -/

theorem Join_clean_elem (p e : Str) (hp : CleanPath p) (he : PlainElem e) :
    Join [p, e] = p ++ '/' :: e := by
  obtain ⟨rooted, elems, hne, hall, rfl⟩ := hp
  have h := Join_pathOf rooted elems [e] hne hall (by simp) (by simpa using he)
  simpa [JoinStrings] using h

theorem lxcDir_clean_home (user : User) (hu : user.Uid ≠ "0".toList)
    (hh : CleanPath user.HomeDir) :
    lxcDir user = user.HomeDir ++ "/.local/share/lxc".toList ∧ CleanPath (lxcDir user) := by
  obtain ⟨rooted, elems, hne, hall, hp⟩ := hh
  have hhome : user.HomeDir ≠ [] := by
    rw [hp]
    exact pathOf_ne_nil rooted elems hne hall
  have hmore : ∀ e ∈ [".local".toList, "share".toList, "lxc".toList], PlainElem e := by
    decide
  have h := Join_pathOf rooted elems [".local".toList, "share".toList, "lxc".toList] hne hall
    (by simp) hmore
  have hdir : lxcDir user
      = Join [user.HomeDir, ".local".toList, "share".toList, "lxc".toList] := by
    unfold lxcDir
    rw [if_pos ⟨hu, hhome⟩]
  refine ⟨?_, rooted, elems ++ [".local".toList, "share".toList, "lxc".toList], by simp, ?_, ?_⟩
  · rw [hdir, hp, h]
    simp [JoinStrings]
  · intro e he
    rcases List.mem_append.mp he with he | he
    · exact hall e he
    · exact hmore e he
  · rw [hdir, hp, h, pathOf_append rooted elems _ hne (by simp)]

/-- C7: the container directory is the container name joined to the store,
which is `/var/lib/lxc` when the uid of the invoking user is `0` and
`<home>/.local/share/lxc` when the uid is not `0` and the home directory is not
empty; the archive and the copy of the configuration are `rootfs.tar.gz` and
`lxc-config` joined to the output directory. Joining is that of
`filepath.Join`; for a name that is an ordinary path element and directories
written in clean form the results are the texts `/var/lib/lxc/<name>`,
`<home>/.local/share/lxc/<name>`, `<out>/rootfs.tar.gz` and `<out>/lxc-config`.
For the home `/home/alice` and the name `web01` the container directory is
`/home/alice/.local/share/lxc/web01`, not `/var/lib/lxc/web01`. -/
theorem config_resolution (user : User) (config : Config) :
    (user.Uid = "0".toList →
      containerDir user config.ContainerName
        = Join ["/var/lib/lxc".toList, config.ContainerName] ∧
      (PlainElem config.ContainerName →
        containerDir user config.ContainerName
          = "/var/lib/lxc/".toList ++ config.ContainerName)) ∧
    (user.Uid ≠ "0".toList → user.HomeDir ≠ [] →
      containerDir user config.ContainerName
        = Join [Join [user.HomeDir, ".local".toList, "share".toList, "lxc".toList],
            config.ContainerName] ∧
      (CleanPath user.HomeDir → PlainElem config.ContainerName →
        containerDir user config.ContainerName
          = user.HomeDir ++ "/.local/share/lxc/".toList ++ config.ContainerName)) ∧
    (outputPath config = Join [config.OutputDir, "rootfs.tar.gz".toList] ∧
      configFilePath config = Join [config.OutputDir, "lxc-config".toList] ∧
      (CleanPath config.OutputDir →
        outputPath config = config.OutputDir ++ "/rootfs.tar.gz".toList ∧
        configFilePath config = config.OutputDir ++ "/lxc-config".toList)) ∧
    (containerDir aliceUser "web01".toList = "/home/alice/.local/share/lxc/web01".toList ∧
      containerDir aliceUser "web01".toList ≠ "/var/lib/lxc/web01".toList ∧
      containerDir rootUser "web01".toList = "/var/lib/lxc/web01".toList) := by
  refine ⟨?_, ?_, ⟨rfl, rfl, ?_⟩, by decide, by decide, by decide⟩
  · intro hu
    have hdir : lxcDir user = "/var/lib/lxc".toList := by
      unfold lxcDir
      rw [if_neg (fun h => h.1 hu)]
    refine ⟨by rw [containerDir, hdir], ?_⟩
    intro hn
    have hstore : CleanPath "/var/lib/lxc".toList :=
      ⟨true, ["var".toList, "lib".toList, "lxc".toList], by decide, by decide, by decide⟩
    rw [containerDir, hdir, Join_clean_elem _ _ hstore hn]
    simp
  · intro hu hh
    have hdir : lxcDir user
        = Join [user.HomeDir, ".local".toList, "share".toList, "lxc".toList] := by
      unfold lxcDir
      rw [if_pos ⟨hu, hh⟩]
    refine ⟨by rw [containerDir, hdir], ?_⟩
    intro hhome hn
    obtain ⟨hlit, hclean⟩ := lxcDir_clean_home user hu hhome
    rw [containerDir, Join_clean_elem _ _ hclean hn, hlit]
    simp
  · intro ho
    constructor
    · rw [outputPath, Join_clean_elem _ _ ho (by decide)]
      simp
    · rw [configFilePath, Join_clean_elem _ _ ho (by decide)]
      simp

/-- The witness of `config_resolution`: the user `alice` of the scenario, whose
uid is not `0` and whose home is `/home/alice`, the container `web01` and the
output directory `/tmp/out`. -/
theorem config_resolution_witness :
    containerDir aliceUser cfgWeb.ContainerName
        = aliceUser.HomeDir ++ "/.local/share/lxc/".toList ++ cfgWeb.ContainerName ∧
      outputPath cfgWeb = cfgWeb.OutputDir ++ "/rootfs.tar.gz".toList ∧
      configFilePath cfgWeb = cfgWeb.OutputDir ++ "/lxc-config".toList :=
  have h := config_resolution aliceUser cfgWeb
  ⟨(h.2.1 (by decide) (by decide)).2
      ⟨true, ["home".toList, "alice".toList], by decide, by decide, by decide⟩ (by decide),
    h.2.2.1.2.2 ⟨true, ["tmp".toList, "out".toList], by decide, by decide, by decide⟩⟩

end StepExport
